import Mathlib

/-!
Verification development for the LP-format reading pipeline in
`extern/filereaderlp/reader.cpp`.

The C++ source is shallowly embedded: each enum, struct and function of the
reader is translated to a Lean inductive, structure or (fuel-indexed, total)
function.  `lpassert` failures are modelled by `Except.error ()`.  IEEE
doubles are modelled by `LpNum`, an extended-rational type with explicit
infinities and a NaN element, which is exact on every constant the claims
mention.  Variables are identified by their (unique) names, so the shared
`Variable` pointers of the C++ code become name handles into the builder's
variable list.
-/

/-- Extended rationals with a NaN element: the model of the C++ `double`
values flowing through the reader.  All constants appearing in the claims
(1, 2, 3, 7, ±infinity) are exact in this model. -/
inductive LpNum where
  | negInf
  | posInf
  | nan
  | num (q : Rat)
  deriving DecidableEq, Repr

/-- `RawTokenType`/`RawToken` of reader.cpp (lines 22-64), fused into one
inductive: the `STR` and `CONS` variants carry their payloads.  The `NONE`
and `LNEND` variants are internal to the C++ lexer loop and never reach
`processtokens`, so they are not represented. -/
inductive RawToken where
  | STR (s : String)
  | CONS (v : LpNum)
  | LESS
  | GREATER
  | EQUAL
  | COLON
  | FLEND
  | BRKOP
  | BRKCL
  | PLUS
  | MINUS
  | HAT
  | SLASH
  | ASTERISK
  deriving DecidableEq, Repr

instance {e a : Type} [DecidableEq e] [DecidableEq a] : DecidableEq (Except e a) := fun x y =>
  match x, y with
  | .error u, .error v =>
    if h : u = v then .isTrue (by rw [h]) else .isFalse (by intro c; cases c; exact h rfl)
  | .error _, .ok _ => .isFalse (by intro c; cases c)
  | .ok _, .error _ => .isFalse (by intro c; cases c)
  | .ok u, .ok v =>
    if h : u = v then .isTrue (by rw [h]) else .isFalse (by intro c; cases c; exact h rfl)

/-- IEEE negation on the `double` model. -/
def LpNum.neg : LpNum → LpNum
  | .negInf => .posInf
  | .posInf => .negInf
  | .nan => .nan
  | .num q => .num (-q)

/-- IEEE addition on the `double` model (`inf + -inf = NaN`). -/
def LpNum.add : LpNum → LpNum → LpNum
  | .nan, _ => .nan
  | _, .nan => .nan
  | .posInf, .negInf => .nan
  | .negInf, .posInf => .nan
  | .posInf, _ => .posInf
  | _, .posInf => .posInf
  | .negInf, _ => .negInf
  | _, .negInf => .negInf
  | .num a, .num b => .num (a + b)

/-- `LpSectionKeyword` of reader.cpp (lines 83-94). -/
inductive LpSectionKeyword where
  | NONE
  | OBJMIN
  | OBJMAX
  | CON
  | BOUNDS
  | GEN
  | BIN
  | SEMI
  | SOS
  | END
  deriving DecidableEq, Repr

/-- `SosType` of reader.cpp (lines 96-99). -/
inductive SosType where
  | SOS1
  | SOS2
  deriving DecidableEq, Repr

/-- `LpComparisonType` of reader.cpp (line 101). -/
inductive LpComparisonType where
  | LEQ
  | L
  | EQ
  | G
  | GEQ
  deriving DecidableEq, Repr

/-- `ProcessedTokenType`/`ProcessedToken` of reader.cpp (lines 66-160),
fused into one inductive; the union payload becomes constructor arguments.
The `NONE` and `LNEND` variants never occur in the processed-token stream. -/
inductive ProcessedToken where
  | SECID (keyword : LpSectionKeyword)
  | VARID (name : String)
  | CONID (name : String)
  | CONST (value : LpNum)
  | FREE
  | BRKOP
  | BRKCL
  | COMP (dir : LpComparisonType)
  | SLASH
  | ASTERISK
  | HAT
  | SOSTYPE (sostype : SosType)
  deriving DecidableEq, Repr

/-- `type == ProcessedTokenType::VARID` test. -/
def ProcessedToken.isVARID : ProcessedToken → Bool
  | .VARID _ => true
  | _ => false

/-- `type == ProcessedTokenType::FREE` test. -/
def ProcessedToken.isFREE : ProcessedToken → Bool
  | .FREE => true
  | _ => false

/-- The name payload of a `VARID`/`CONID` token (empty string otherwise). -/
def ProcessedToken.nameD : ProcessedToken → String
  | .VARID n => n
  | .CONID n => n
  | _ => ""

/-- The keyword payload of a `SECID` token, `none` for every other token. -/
def secOf : ProcessedToken → Option LpSectionKeyword
  | .SECID kw => some kw
  | _ => none

/-- Modelled from the spec: keyword table `LP_KEYWORD_MIN` of def.hpp
(def.hpp is not part of src/); spellings from spec section 6. -/
def LP_KEYWORD_MIN : List String := ["min", "minimize", "minimise"]

/-- Modelled from the spec: keyword table `LP_KEYWORD_MAX` of def.hpp. -/
def LP_KEYWORD_MAX : List String := ["max", "maximize", "maximise"]

/-- Modelled from the spec: keyword table `LP_KEYWORD_ST` of def.hpp. -/
def LP_KEYWORD_ST : List String := ["st", "s.t.", "subject to", "such that"]

/-- Modelled from the spec: keyword table `LP_KEYWORD_BOUNDS` of def.hpp. -/
def LP_KEYWORD_BOUNDS : List String := ["bounds", "bound"]

/-- Modelled from the spec: keyword table `LP_KEYWORD_BIN` of def.hpp. -/
def LP_KEYWORD_BIN : List String := ["bin", "binary", "binaries"]

/-- Modelled from the spec: keyword table `LP_KEYWORD_GEN` of def.hpp. -/
def LP_KEYWORD_GEN : List String := ["gen", "general", "generals", "int", "integer", "integers"]

/-- Modelled from the spec: keyword table `LP_KEYWORD_SEMI` of def.hpp. -/
def LP_KEYWORD_SEMI : List String := ["semi", "semi-continuous", "semis"]

/-- Modelled from the spec: keyword table `LP_KEYWORD_SOS` of def.hpp. -/
def LP_KEYWORD_SOS : List String := ["sos"]

/-- Modelled from the spec: keyword table `LP_KEYWORD_END` of def.hpp. -/
def LP_KEYWORD_END : List String := ["end"]

/-- Modelled from the spec: keyword table `LP_KEYWORD_FREE` of def.hpp. -/
def LP_KEYWORD_FREE : List String := ["free"]

/-- Modelled from the spec: keyword table `LP_KEYWORD_INF` of def.hpp. -/
def LP_KEYWORD_INF : List String := ["inf", "infinity"]

/-- `iskeyword` of reader.cpp (lines 224-232). -/
def iskeyword (str : String) (keywords : List String) : Bool :=
  keywords.any (fun k => k == str)

/-- ASCII lower-casing, as `std::tolower` applied characterwise. -/
def strlower (s : String) : String :=
  String.mk (s.data.map Char.toLower)

/-- `parsesectionkeyword` of reader.cpp (lines 234-276). -/
def parsesectionkeyword (str : String) : LpSectionKeyword :=
  let s := strlower str
  if iskeyword s LP_KEYWORD_MIN then .OBJMIN
  else if iskeyword s LP_KEYWORD_MAX then .OBJMAX
  else if iskeyword s LP_KEYWORD_ST then .CON
  else if iskeyword s LP_KEYWORD_BOUNDS then .BOUNDS
  else if iskeyword s LP_KEYWORD_BIN then .BIN
  else if iskeyword s LP_KEYWORD_GEN then .GEN
  else if iskeyword s LP_KEYWORD_SEMI then .SEMI
  else if iskeyword s LP_KEYWORD_SOS then .SOS
  else if iskeyword s LP_KEYWORD_END then .END
  else .NONE

/-- `VariableType` of model.hpp; the five kinds named in spec section 3. -/
inductive VariableType where
  | CONTINUOUS
  | BINARY
  | GENERAL
  | SEMICONTINUOUS
  | SEMIINTEGER
  deriving DecidableEq, Repr

/-- Modelled from the spec: `Variable` of model.hpp (model.hpp is not part
of src/); defaults lower bound 0, upper bound +infinity, kind continuous
per spec sections 3 and 4.6. -/
structure Variable where
  name : String
  lowerbound : LpNum := .num 0
  upperbound : LpNum := .posInf
  vartype : VariableType := .CONTINUOUS
  deriving DecidableEq, Repr

/-- `LinTerm` of model.hpp: coefficient times a variable reference; the
shared pointer is modelled by the variable's (unique) name. -/
structure LinTerm where
  coef : LpNum
  var : String
  deriving DecidableEq, Repr

/-- `QuadTerm` of model.hpp: coefficient times two variable references. -/
structure QuadTerm where
  coef : LpNum
  var1 : String
  var2 : String
  deriving DecidableEq, Repr

/-- `Expression` of model.hpp: optional name, constant offset, linear and
quadratic terms (spec section 3). -/
structure Expression where
  name : Option String := none
  offset : LpNum := .num 0
  linterms : List LinTerm := []
  quadterms : List QuadTerm := []
  deriving DecidableEq, Repr

/-- Modelled from the spec: `Constraint` of model.hpp (not part of src/);
an expression with bounds defaulting to (-infinity, +infinity), equality
writes both (spec sections 3 and 8). -/
structure Constraint where
  expr : Expression := {}
  lowerbound : LpNum := .negInf
  upperbound : LpNum := .posInf
  deriving DecidableEq, Repr

/-- `SOS` of model.hpp: name, type (1 or 2) and ordered (variable, weight)
entries, the variable references modelled by names. -/
structure SOS where
  name : String
  sostype : Nat
  entries : List (String × LpNum) := []
  deriving DecidableEq, Repr

/-- `ObjectiveSense` of model.hpp. -/
inductive ObjectiveSense where
  | MIN
  | MAX
  deriving DecidableEq, Repr

/-- Modelled from the spec: `Model` of model.hpp (not part of src/): sense,
objective, constraints in file order, variables in first-reference order,
special-ordered sets in file order (spec section 3). -/
structure Model where
  sense : ObjectiveSense := .MIN
  objective : Expression := {}
  constraints : List Constraint := []
  vars : List Variable := []
  soss : List SOS := []
  deriving DecidableEq, Repr

/-- The builder's variable list (insertion = first-reference order). -/
abbrev VarMap := List Variable

/-- Lookup of a variable by name in the builder's list. -/
def varlookup : VarMap → String → Option Variable
  | [], _ => none
  | v :: rest, x => if v.name = x then some v else varlookup rest x

/-- Whether a variable name is registered. -/
def varmem : VarMap → String → Bool
  | [], _ => false
  | v :: rest, x => if v.name = x then true else varmem rest x

/-- Modelled from the spec: `Builder::getvarbyname` (builder.hpp is not
part of src/); per spec section 4.6 it returns the registered variable or
registers a fresh default one, preserving first-seen order.  Only the
registration effect is modelled; the returned shared pointer becomes the
name handle `x`. -/
def getvarbyname (vars : VarMap) (x : String) : VarMap :=
  if varmem vars x then vars else vars ++ [{ name := x }]

/-- Apply `f` to the registered variable named `x` (the model of mutating
the shared `Variable` object returned by `getvarbyname`). -/
def mapupd : VarMap → String → (Variable → Variable) → VarMap
  | [], _, _ => []
  | v :: rest, x, f => (if v.name = x then f v else v) :: mapupd rest x f

/-- `getvarbyname` followed by a field mutation on the returned variable. -/
def updvar (vars : VarMap) (x : String) (f : Variable → Variable) : VarMap :=
  mapupd (getvarbyname vars x) x f

/-- Accumulate a maximal run of decimal digits; returns the accumulated
value, the number of digits consumed and the rest of the input. -/
def takedigits : List Char → Nat → Nat → Nat × Nat × List Char
  | [], acc, n => (acc, n, [])
  | c :: rest, acc, n =>
    if c.isDigit then takedigits rest (acc * 10 + (c.toNat - 48)) (n + 1)
    else (acc, n, c :: rest)

/-- Case-insensitive test that the second list starts with the first
(pattern given in lower case). -/
def ciMatch : List Char → List Char → Bool
  | [], _ => true
  | _ :: _, [] => false
  | p :: ps, c :: cs => (c.toLower == p) && ciMatch ps cs

/-- The characters of the literal infinity spelling accepted by strtod. -/
def infinitychars : List Char := ['i', 'n', 'f', 'i', 'n', 'i', 't', 'y']

/-- The characters of the short infinity spelling accepted by strtod. -/
def infchars : List Char := ['i', 'n', 'f']

/-- The characters of the NaN spelling accepted by strtod. -/
def nanchars : List Char := ['n', 'a', 'n']

/-- The locale-independent `strtod` call of reader.cpp line 1108: parses an
optional sign, then a decimal mantissa with optional fraction and optional
exponent, or the case-insensitive spellings inf/infinity/nan; returns the
value and the number of characters consumed, or `none` when no conversion
is performed (`endptr == startptr`).  The value
(intpart + frac/10^fraclen) * 10^exponent is assembled as one `mkRat` call
on integer arithmetic.  Hexadecimal floats are not modelled; leading
whitespace cannot occur here because the lexer's switch has already
consumed spaces and tabs. -/
def strtod (l : List Char) : Option (LpNum × Nat) :=
  let sl :=
    match l with
    | '-' :: r => (true, r)
    | '+' :: r => (false, r)
    | _ => (false, l)
  let sgn := sl.1
  let l1 := sl.2
  if ciMatch infinitychars l1 then some ((if sgn then .negInf else .posInf), l.length - l1.length + 8)
  else if ciMatch infchars l1 then some ((if sgn then .negInf else .posInf), l.length - l1.length + 3)
  else if ciMatch nanchars l1 then some (.nan, l.length - l1.length + 3)
  else
    let ipart := takedigits l1 0 0
    let ip := ipart.1
    let ipn := ipart.2.1
    let l2 := ipart.2.2
    let fpart :=
      match l2 with
      | '.' :: r => takedigits r 0 0
      | _ => (0, 0, l2)
    let fp := fpart.1
    let fpn := fpart.2.1
    let l3 := fpart.2.2
    if ipn = 0 ∧ fpn = 0 then none
    else
      let epart :=
        match l3 with
        | c :: r =>
          if c = 'e' ∨ c = 'E' then
            let sr :=
              match r with
              | '-' :: rr => (true, rr)
              | '+' :: rr => (false, rr)
              | _ => (false, r)
            let d := takedigits sr.2 0 0
            if d.2.1 = 0 then ((0 : Int), l3)
            else ((if sr.1 then -(d.1 : Int) else (d.1 : Int)), d.2.2)
          else ((0 : Int), l3)
        | [] => ((0 : Int), l3)
      let ex := epart.1
      let l4 := epart.2
      let value : Rat :=
        if ex < 0 then mkRat ((ip * 10 ^ fpn + fp : Nat) : Int) (10 ^ fpn * 10 ^ (-ex).toNat)
        else mkRat (((ip * 10 ^ fpn + fp : Nat) : Int) * (10 : Int) ^ ex.toNat) (10 ^ fpn)
      some ((if sgn then .num (-value) else .num value), l.length - l4.length)

/-- The single-character cases of the lexer switch in reader.cpp
(lines 1015-1086): each of these characters yields its token and advances
one position. -/
def singleCharTok (c : Char) : Option RawToken :=
  if c = '[' then some .BRKOP
  else if c = ']' then some .BRKCL
  else if c = '<' then some .LESS
  else if c = '>' then some .GREATER
  else if c = '=' then some .EQUAL
  else if c = ':' then some .COLON
  else if c = '+' then some .PLUS
  else if c = '^' then some .HAT
  else if c = '/' then some .SLASH
  else if c = '*' then some .ASTERISK
  else if c = '-' then some .MINUS
  else none

/-- The terminator set of the identifier rule: the exact character set
passed to `find_first_of` at reader.cpp line 1116. -/
def lexTermChars : List Char := ['\t', '\n', '\\', ':', '+', '<', '>', '^', '=', ' ', '/', '-', '*']

/-- Length of the identifier run: the distance from the current position to
the first character of `lexTermChars` (the whole rest of the line when none
occurs), as computed by `find_first_of`. -/
def runlen : List Char → Nat
  | [] => 0
  | c :: rest => if c ∈ lexTermChars then 0 else runlen rest + 1

/-- Result of one `readnexttoken` call on the current line: a token plus
the new position, a skip (whitespace, comment or line end: the C++ function
returns `false` and the caller retries), or the fatal
`UnexpectedCharacter` failure of reader.cpp line 1125. -/
inductive LexOut where
  | tok (t : RawToken) (newpos : Nat)
  | skip (newpos : Nat)
  | fail
  deriving DecidableEq, Repr

/-- `Reader::readnexttoken` of reader.cpp (lines 995-1127), restricted to a
single line: position past the end plays the role of the `'\0'` case (the
caller then reads the next line, or ends the file). -/
def readnexttoken (line : List Char) (pos : Nat) : LexOut :=
  match line.get? pos with
  | none => .skip line.length
  | some c =>
    if c = '\\' then .skip line.length
    else
      match singleCharTok c with
      | some t => .tok t (pos + 1)
      | none =>
        if c = ' ' ∨ c = '\t' then .skip (pos + 1)
        else if c = ';' ∨ c = '\n' then .skip line.length
        else
          match strtod (line.drop pos) with
          | some (v, len) => .tok (.CONS v) (pos + len)
          | none =>
            let n := runlen (line.drop pos)
            if 0 < n then .tok (.STR (String.mk ((line.drop pos).take n))) (pos + n)
            else .fail

/-- Drive `readnexttoken` over one full line, collecting the raw tokens
(the fuel exceeds the line length, so it never runs out: every step
advances the position). -/
def tokenizeAux : Nat → List Char → Nat → Except Unit (List RawToken)
  | 0, _, _ => .error ()
  | fuel + 1, line, pos =>
    if line.length ≤ pos then .ok []
    else
      match readnexttoken line pos with
      | .tok t p => (tokenizeAux fuel line p).map (fun ts => t :: ts)
      | .skip p => tokenizeAux fuel line p
      | .fail => .error ()

/-- Raw-token stream of a one-line input file (the end-of-file sentinel is
left implicit: lookahead past the end of the list reads `FLEND`). -/
def tokenize (s : String) : Except Unit (List RawToken) :=
  tokenizeAux (s.length + 2) s.data 0

/-- The 5-slot lookahead of `Reader::rawtoken`: reading past the end of the
stream yields the end-of-file sentinel forever. -/
def peekraw (l : List RawToken) (i : Nat) : RawToken := l.getD i .FLEND

/-- The comment skip of `processtokens` (reader.cpp lines 772-780): advance
two raw tokens at a time until an asterisk-slash pair or end of file, then
advance two more. -/
def skipcommentAux : Nat → List RawToken → List RawToken
  | 0, toks => toks
  | fuel + 1, toks =>
    let t2 := toks.drop 2
    if (peekraw t2 0 = .ASTERISK ∧ peekraw t2 1 = .SLASH) ∨ peekraw t2 0 = .FLEND then t2.drop 2
    else skipcommentAux fuel t2

/-- The hyphen-joined two-string keyword test of reader.cpp lines 783-791,
given the two lookahead tokens after the leading string. -/
def hyphenkw (s : String) : RawToken → RawToken → Option LpSectionKeyword
  | .MINUS, .STR s2 =>
    let kw := parsesectionkeyword (s ++ "-" ++ s2)
    if kw = .NONE then none else some kw
  | _, _ => none

/-- The space-joined two-string keyword test of reader.cpp lines 794-802. -/
def spacekw (s : String) : RawToken → Option LpSectionKeyword
  | .STR s2 =>
    let kw := parsesectionkeyword (s ++ " " ++ s2)
    if kw = .NONE then none else some kw
  | _ => none

/-- The single-string keyword test of reader.cpp lines 805-812. -/
def singlekw (s : String) : Option LpSectionKeyword :=
  let kw := parsesectionkeyword s
  if kw = .NONE then none else some kw

/-- The SOS-type assertions of reader.cpp lines 816-819: the string must
have exactly two characters, `S` or `s` then `1` or `2`. -/
def sostypetok (s : String) : Except Unit ProcessedToken :=
  match s.data with
  | [c1, c2] =>
    if c1 = 'S' ∨ c1 = 's' then
      if c2 = '1' then .ok (.SOSTYPE .SOS1)
      else if c2 = '2' then .ok (.SOSTYPE .SOS2)
      else .error ()
    else .error ()
  | _ => .error ()

/-- `type == RawTokenType::COLON` test. -/
def RawToken.isCOLON : RawToken → Bool
  | .COLON => true
  | _ => false

/-- Classification of a leading string raw token, following the priority
order of `processtokens` (reader.cpp lines 783-850): hyphenated keyword,
two-word keyword, single keyword, SOS type, constraint identifier, free,
infinity, variable identifier.  Returns the semantic token and how many
raw tokens are consumed. -/
def classifyStr (s : String) (t1 t2 : RawToken) : Except Unit (ProcessedToken × Nat) :=
  match hyphenkw s t1 t2 with
  | some kw => .ok (.SECID kw, 3)
  | none =>
    match spacekw s t1 with
    | some kw => .ok (.SECID kw, 2)
    | none =>
      match singlekw s with
      | some kw => .ok (.SECID kw, 1)
      | none =>
        if t1.isCOLON ∧ t2.isCOLON then (sostypetok s).map (fun t => (t, 3))
        else if t1.isCOLON then .ok (.CONID s, 2)
        else if iskeyword s LP_KEYWORD_FREE then .ok (.FREE, 1)
        else if iskeyword s LP_KEYWORD_INF then .ok (.CONST .posInf, 1)
        else .ok (.VARID s, 1)

/-- `Reader::processtokens` of reader.cpp (lines 767-981), as a recursion
on the raw-token stream (fuel exceeds the stream length; every branch
consumes at least one raw token). -/
def processtokensAux : Nat → List RawToken → Except Unit (List ProcessedToken)
  | 0, _ => .error ()
  | fuel + 1, toks =>
    match toks with
    | [] => .ok []
    | .FLEND :: _ => .ok []
    | .SLASH :: rest =>
      if peekraw rest 0 = .ASTERISK then
        processtokensAux fuel (skipcommentAux (toks.length + 1) toks)
      else
        (processtokensAux fuel rest).map (fun ts => .SLASH :: ts)
    | .STR s :: rest =>
      match classifyStr s (peekraw rest 0) (peekraw rest 1) with
      | .error e => .error e
      | .ok (pt, n) => (processtokensAux fuel (toks.drop n)).map (fun ts => pt :: ts)
    | .PLUS :: rest =>
      match rest with
      | .CONS v :: rest2 => (processtokensAux fuel rest2).map (fun ts => .CONST v :: ts)
      | .BRKOP :: rest2 => (processtokensAux fuel rest2).map (fun ts => .BRKOP :: ts)
      | _ => (processtokensAux fuel rest).map (fun ts => .CONST (.num 1) :: ts)
    | .MINUS :: rest =>
      match rest with
      | .CONS v :: rest2 => (processtokensAux fuel rest2).map (fun ts => .CONST v.neg :: ts)
      | .BRKOP :: _ => .error ()
      | _ => (processtokensAux fuel rest).map (fun ts => .CONST (.num (-1)) :: ts)
    | .CONS v :: rest =>
      match rest with
      | .BRKOP :: _ => .error ()
      | _ => (processtokensAux fuel rest).map (fun ts => .CONST v :: ts)
    | .BRKOP :: rest => (processtokensAux fuel rest).map (fun ts => .BRKOP :: ts)
    | .BRKCL :: rest => (processtokensAux fuel rest).map (fun ts => .BRKCL :: ts)
    | .ASTERISK :: rest => (processtokensAux fuel rest).map (fun ts => .ASTERISK :: ts)
    | .HAT :: rest => (processtokensAux fuel rest).map (fun ts => .HAT :: ts)
    | .LESS :: rest =>
      match rest with
      | .EQUAL :: rest2 => (processtokensAux fuel rest2).map (fun ts => .COMP .LEQ :: ts)
      | _ => (processtokensAux fuel rest).map (fun ts => .COMP .L :: ts)
    | .GREATER :: rest =>
      match rest with
      | .EQUAL :: rest2 => (processtokensAux fuel rest2).map (fun ts => .COMP .GEQ :: ts)
      | _ => (processtokensAux fuel rest).map (fun ts => .COMP .G :: ts)
    | .EQUAL :: rest => (processtokensAux fuel rest).map (fun ts => .COMP .EQ :: ts)
    | .COLON :: _ => .error ()

/-- `Reader::processtokens` on a finite raw-token stream. -/
def processtokens (toks : List RawToken) : Except Unit (List ProcessedToken) :=
  processtokensAux (toks.length + 1) toks

/-- The `sectiontokens` map of reader.cpp line 175, as an association list
from section keyword to a begin/end position pair into the processed-token
vector (keys are unique: an insert is always guarded by the duplicate
check). -/
abbrev SectionMap := List (LpSectionKeyword × Nat × Nat)

/-- `std::map::count(kw) != 0`. -/
def smcontains : SectionMap → LpSectionKeyword → Bool
  | [], _ => false
  | e :: rest, kw => if e.1 = kw then true else smcontains rest kw

/-- `std::map::operator[]` read access after the splitter has run. -/
def smfind : SectionMap → LpSectionKeyword → Option (Nat × Nat)
  | [], _ => none
  | e :: rest, kw => if e.1 = kw then some e.2 else smfind rest kw

/-- `sectiontokens[cur].second = it`: update the end position of the entry
for `cur` (a no-op on the keys of the map). -/
def smsetSecond : SectionMap → LpSectionKeyword → Nat → SectionMap
  | [], _, _ => []
  | e :: rest, kw, v => (if e.1 = kw then (e.1, e.2.1, v) else e) :: smsetSecond rest kw v

/-- `sectiontokens[kw].first = next`: create the entry for `kw` with begin
position `v` (the end position is written later, before any read). -/
def sminsertFirst (m : SectionMap) (kw : LpSectionKeyword) (v : Nat) : SectionMap :=
  m ++ [(kw, v, 0)]

/-- Closing the currently open section at position `i` (reader.cpp lines
745-746 and 763-764): a no-op when no section is open. -/
def closesec (m : SectionMap) (cur : LpSectionKeyword) (i : Nat) : SectionMap :=
  if cur = .NONE then m else smsetSecond m cur i

/-- Whether the token after a section keyword ends the section immediately
(reader.cpp line 755): end of stream or another section keyword. -/
def emptyNext : List ProcessedToken → Bool
  | [] => true
  | r :: _ => (secOf r).isSome

/-- The scan of `Reader::splittokens` (reader.cpp lines 740-765): `i` is
the position of the head of `toks` in the whole stream, `cur` the currently
open section, `m` the section map built so far.  `Except.error ()` is the
fatal `DuplicateSection` check of line 750. -/
def splitloop : List ProcessedToken → Nat → LpSectionKeyword → SectionMap → Except Unit SectionMap
  | [], i, cur, m => .ok (closesec m cur i)
  | t :: rest, i, cur, m =>
    match secOf t with
    | none => splitloop rest (i + 1) cur m
    | some kw =>
      let m1 := closesec m cur i
      if smcontains m1 kw then .error ()
      else if emptyNext rest then splitloop rest (i + 1) .NONE m1
      else splitloop rest (i + 1) kw (sminsertFirst m1 kw (i + 1))

/-- `Reader::splittokens` on the whole processed-token stream. -/
def splittokens (toks : List ProcessedToken) : Except Unit SectionMap :=
  splitloop toks 0 .NONE []

/-- The token range of a section: `(toks.drop a).take (b - a)` for the
stored begin/end positions `(a, b)`. -/
def secslice (toks : List ProcessedToken) (r : Nat × Nat) : List ProcessedToken :=
  (toks.drop r.1).take (r.2 - r.1)

/-- Append a linear term (reader.cpp lines 318-328 and 339-348). -/
def addlin (expr : Expression) (c : LpNum) (v : String) : Expression :=
  { expr with linterms := expr.linterms ++ [{ coef := c, var := v }] }

/-- Append a quadratic term (reader.cpp lines 363-436). -/
def addquad (expr : Expression) (c : LpNum) (v1 v2 : String) : Expression :=
  { expr with quadterms := expr.quadterms ++ [{ coef := c, var1 := v1, var2 := v2 }] }

/-- The quadratic-group loop of `parseexpression` (reader.cpp lines
354-438), entered after the opening bracket: matches, in priority order,
const-var-hat-const, var-hat-const, const-var-asterisk-var and
var-asterisk-var, appending a quadratic term each time; the exponent must
equal 2.0 (`lpassert` at lines 370 and 389) or the parse fails; any other
shape (including the closing bracket) stops the loop, returning the rest
of the range. -/
def parsequad : List ProcessedToken → Expression → VarMap → Except Unit (Expression × VarMap × List ProcessedToken)
  | .CONST c :: .VARID v :: .HAT :: .CONST e :: rest, expr, vars =>
    if e = .num 2 then
      parsequad rest (addquad expr c v v) (getvarbyname (getvarbyname vars v) v)
    else .error ()
  | .VARID v :: .HAT :: .CONST e :: rest, expr, vars =>
    if e = .num 2 then
      parsequad rest (addquad expr (.num 1) v v) (getvarbyname (getvarbyname vars v) v)
    else .error ()
  | .CONST c :: .VARID v1 :: .ASTERISK :: .VARID v2 :: rest, expr, vars =>
    parsequad rest (addquad expr c v1 v2) (getvarbyname (getvarbyname vars v1) v2)
  | .VARID v1 :: .ASTERISK :: .VARID v2 :: rest, expr, vars =>
    parsequad rest (addquad expr (.num 1) v1 v2) (getvarbyname (getvarbyname vars v1) v2)
  | toks, expr, vars => .ok (expr, vars, toks)

/-- The main loop of `Reader::parseexpression` (reader.cpp lines 314-462):
const-var, lone const, lone var, or a bracketed quadratic group; any other
token stops the loop with the cursor left on it.  After a quadratic group,
in the objective the closing bracket must be followed by a slash and the
constant 2.0 (`lpassert`s at lines 446-450), outside the objective the
closing bracket alone is required (lines 454-455).  The fuel exceeds the
range length, so it never runs out. -/
def parseexprloop : Nat → Bool → List ProcessedToken → Expression → VarMap → Except Unit (Expression × VarMap × List ProcessedToken)
  | 0, _, _, _, _ => .error ()
  | fuel + 1, isobj, toks, expr, vars =>
    match toks with
    | .CONST c :: .VARID v :: rest =>
      parseexprloop fuel isobj rest (addlin expr c v) (getvarbyname vars v)
    | .CONST c :: rest =>
      parseexprloop fuel isobj rest { expr with offset := expr.offset.add c } vars
    | .VARID v :: rest =>
      parseexprloop fuel isobj rest (addlin expr (.num 1) v) (getvarbyname vars v)
    | .BRKOP :: t :: rest =>
      match parsequad (t :: rest) expr vars with
      | .error e => .error e
      | .ok (expr2, vars2, rem) =>
        if isobj then
          match rem with
          | .BRKCL :: .SLASH :: .CONST c :: rem2 =>
            if c = .num 2 then parseexprloop fuel isobj rem2 expr2 vars2 else .error ()
          | _ => .error ()
        else
          match rem with
          | .BRKCL :: rem2 => parseexprloop fuel isobj rem2 expr2 vars2
          | _ => .error ()
    | _ => .ok (expr, vars, toks)

/-- `Reader::parseexpression` (reader.cpp lines 308-463): an optional
leading constraint-identifier token names the expression, then the term
loop runs; returns the populated expression, the updated variable list and
the unconsumed rest of the range. -/
def parseexpression (isobj : Bool) (toks : List ProcessedToken) (expr : Expression) (vars : VarMap) : Except Unit (Expression × VarMap × List ProcessedToken) :=
  match toks with
  | .CONID n :: rest => parseexprloop (rest.length + 1) isobj rest { expr with name := some n } vars
  | _ => parseexprloop (toks.length + 1) isobj toks expr vars

/-- `Reader::processobjsec` (reader.cpp lines 465-479): the objective is
always freshly allocated; a minimize section sets sense MIN and parses the
whole section range as the objective expression (the `lpassert` at line 471
requires the range to be fully consumed), else a maximize section does the
same with sense MAX, else nothing further happens. -/
def processobjsec (m : SectionMap) (toks : List ProcessedToken) (model : Model) : Except Unit Model :=
  let model1 := { model with objective := {} }
  match smfind m .OBJMIN with
  | some r =>
    match parseexpression true (secslice toks r) {} model1.vars with
    | .error e => .error e
    | .ok (expr, vars2, rest) =>
      if rest = [] then .ok { model1 with sense := .MIN, objective := expr, vars := vars2 }
      else .error ()
  | none =>
    match smfind m .OBJMAX with
    | some r =>
      match parseexpression true (secslice toks r) {} model1.vars with
      | .error e => .error e
      | .ok (expr, vars2, rest) =>
        if rest = [] then .ok { model1 with sense := .MAX, objective := expr, vars := vars2 }
        else .error ()
    | none => .ok model1

/-- Commit an updated variable list and append a finished constraint
(reader.cpp line 511). -/
def addcon (model : Model) (vars2 : VarMap) (con : Constraint) : Model :=
  { model with vars := vars2, constraints := model.constraints ++ [con] }

/-- The loop of `Reader::processconsec` (reader.cpp lines 486-513): parse
one expression, require a comparison token and a constant right-hand side
(`lpassert`s at lines 490-497; the strict directions fail at line 509),
write the bound(s), append the constraint and repeat until the range is
exhausted. -/
def processconsecloop : Nat → List ProcessedToken → Model → Except Unit Model
  | _, [], model => .ok model
  | 0, _, _ => .error ()
  | fuel + 1, toks, model =>
    match parseexpression false toks {} model.vars with
    | .error e => .error e
    | .ok (expr, vars2, rest) =>
      match rest with
      | .COMP dir :: .CONST v :: rest2 =>
        match dir with
        | .EQ => processconsecloop fuel rest2 (addcon model vars2 { expr := expr, lowerbound := v, upperbound := v })
        | .LEQ => processconsecloop fuel rest2 (addcon model vars2 { expr := expr, upperbound := v })
        | .GEQ => processconsecloop fuel rest2 (addcon model vars2 { expr := expr, lowerbound := v })
        | _ => .error ()
      | _ => .error ()

/-- `Reader::processconsec` (reader.cpp lines 481-514). -/
def processconsec (m : SectionMap) (toks : List ProcessedToken) (model : Model) : Except Unit Model :=
  match smfind m .CON with
  | none => .ok model
  | some r =>
    let s := secslice toks r
    processconsecloop (s.length + 1) s model

/-- The loop of `Reader::processboundssec` (reader.cpp lines 521-626).
In the source, `next1` is initialized to `begin` (line 522) and the
variable-free guard at lines 525-527 compares `begin->type` with VARID and
`next1->type` with FREE before `next1` is ever advanced, so both tests read
the same token; the guard is therefore embedded as a test on the head token
alone.  The remaining patterns are const-comp-var-comp-const (both
directions must be `<=`, lines 551-552), const-comp-var and const-comp-var
mirrored (strict directions fail, lines 577 and 606); no match is the
fatal `lpassert(false)` of line 625. -/
def processboundsloop : Nat → List ProcessedToken → VarMap → Except Unit VarMap
  | _, [], vars => .ok vars
  | 0, _, _ => .error ()
  | fuel + 1, t :: rest, vars =>
    if t.isVARID && t.isFREE then
      processboundsloop fuel rest
        (updvar vars t.nameD (fun v => { v with lowerbound := .negInf, upperbound := .posInf }))
    else
      match t :: rest with
      | .CONST lb :: .COMP d1 :: .VARID x :: .COMP d2 :: .CONST ub :: rest2 =>
        if d1 = .LEQ ∧ d2 = .LEQ then
          processboundsloop fuel rest2
            (updvar vars x (fun v => { v with lowerbound := lb, upperbound := ub }))
        else .error ()
      | .CONST c :: .COMP d :: .VARID x :: rest2 =>
        match d with
        | .LEQ => processboundsloop fuel rest2 (updvar vars x (fun v => { v with lowerbound := c }))
        | .GEQ => processboundsloop fuel rest2 (updvar vars x (fun v => { v with upperbound := c }))
        | .EQ => processboundsloop fuel rest2 (updvar vars x (fun v => { v with lowerbound := c, upperbound := c }))
        | _ => .error ()
      | .VARID x :: .COMP d :: .CONST c :: rest2 =>
        match d with
        | .LEQ => processboundsloop fuel rest2 (updvar vars x (fun v => { v with upperbound := c }))
        | .GEQ => processboundsloop fuel rest2 (updvar vars x (fun v => { v with lowerbound := c }))
        | .EQ => processboundsloop fuel rest2 (updvar vars x (fun v => { v with lowerbound := c, upperbound := c }))
        | _ => .error ()
      | _ => .error ()

/-- `Reader::processboundssec` (reader.cpp lines 516-627). -/
def processboundssec (m : SectionMap) (toks : List ProcessedToken) (model : Model) : Except Unit Model :=
  match smfind m .BOUNDS with
  | none => .ok model
  | some r =>
    let s := secslice toks r
    match processboundsloop (s.length + 1) s model.vars with
    | .error e => .error e
    | .ok vars2 => .ok { model with vars := vars2 }

/-- The kind update applied to one listed variable of the semicontinuous
section (reader.cpp lines 668-674): semi-integer when already
general-integer, semicontinuous otherwise. -/
def semistep (vars : VarMap) (x : String) : VarMap :=
  updvar vars x (fun v =>
    { v with vartype := if v.vartype = .GENERAL then .SEMIINTEGER else .SEMICONTINUOUS })

/-- The loop of `Reader::processsemisec` (reader.cpp lines 666-675): every
token of the range must be a variable reference (`lpassert` at line 667). -/
def processsemiloop : List ProcessedToken → VarMap → Except Unit VarMap
  | [], vars => .ok vars
  | .VARID x :: rest, vars => processsemiloop rest (semistep vars x)
  | _, _ => .error ()

/-- `Reader::processsemisec` (reader.cpp lines 661-676).  The guard at line
662 returns early unless the map has an entry for the *integer* section
keyword (GEN), not the semicontinuous section's own; when GEN is present
but SEMI is absent, `sectiontokens[SEMI]` default-constructs an empty
range (value-initialized iterators compare equal), embedded as the empty
slice. -/
def processsemisec (m : SectionMap) (toks : List ProcessedToken) (model : Model) : Except Unit Model :=
  if (smfind m .GEN).isNone then .ok model
  else
    let s :=
      match smfind m .SEMI with
      | some r => secslice toks r
      | none => []
    match processsemiloop s model.vars with
    | .error e => .error e
    | .ok vars2 => .ok { model with vars := vars2 }

/-- The entry loop of `Reader::processsossec` (reader.cpp lines 699-718):
while the next token is a constraint-identifier (a string followed by a
colon, reinterpreted here as a variable name), require a following
constant as its weight and append the (variable, weight) pair; a
constraint-identifier not followed by a constant is consumed before the
loop breaks. -/
def sosentries : List ProcessedToken → VarMap → SOS → SOS × VarMap × List ProcessedToken
  | .CONID name :: .CONST w :: rest, vars, sos =>
    sosentries rest (getvarbyname vars name) { sos with entries := sos.entries ++ [(name, w)] }
  | .CONID _ :: rest, vars, sos => (sos, vars, rest)
  | toks, vars, sos => (sos, vars, toks)

/-- The outer loop of `Reader::processsossec` (reader.cpp lines 683-721):
each set requires a constraint-identifier name (`lpassert` at line 689) and
an SOS type token (lines 694-696), then its entries; the completed set is
appended. -/
def sosloop : Nat → List ProcessedToken → VarMap → List SOS → Except Unit (List SOS × VarMap)
  | _, [], vars, acc => .ok (acc, vars)
  | 0, _, _, _ => .error ()
  | fuel + 1, .CONID name :: rest, vars, acc =>
    match rest with
    | .SOSTYPE st :: rest2 =>
      let r := sosentries rest2 vars { name := name, sostype := if st = .SOS1 then 1 else 2 }
      sosloop fuel r.2.2 r.2.1 (acc ++ [r.1])
    | _ => .error ()
  | _ + 1, _, _, _ => .error ()

/-- `Reader::processsossec` (reader.cpp lines 678-722). -/
def processsossec (m : SectionMap) (toks : List ProcessedToken) (model : Model) : Except Unit Model :=
  match smfind m .SOS with
  | none => .ok model
  | some r =>
    let s := secslice toks r
    match sosloop (s.length + 1) s model.vars [] with
    | .error e => .error e
    | .ok (newsoss, vars2) => .ok { model with vars := vars2, soss := model.soss ++ newsoss }

/-- Claim C1: the spec says a bounds-section entry `x free` sets the
variable's bounds to (-infinity, +infinity) without failing.  The source's
guard compares the same token for VARID and FREE (the lookahead iterator
is never advanced before the test), so the guard can never fire and the
entry falls through every pattern into the fatal `lpassert(false)`:
processing the two-token bounds range `x free` fails. -/
theorem claim_c1_bounds_free_entry :
    processboundssec [(.BOUNDS, 0, 2)] [.VARID "x", .FREE] {} = .error () ∧
    ∀ t : ProcessedToken, (t.isVARID && t.isFREE) = false := by
  refine ⟨by decide, fun t => by cases t <;> rfl⟩

/-- Claim C7: a bounds section `3 <= x <= 7` and a bounds section with the
two entries `x >= 3` and `x <= 7` produce the same final bounds [3, 7] for
`x`. -/
theorem claim_c7_bounds_equivalence (x : String) :
    processboundssec [(.BOUNDS, 0, 5)]
        [.CONST (.num 3), .COMP .LEQ, .VARID x, .COMP .LEQ, .CONST (.num 7)] {} =
      .ok { vars := [{ name := x, lowerbound := .num 3, upperbound := .num 7 }] } ∧
    processboundssec [(.BOUNDS, 0, 6)]
        [.VARID x, .COMP .GEQ, .CONST (.num 3), .VARID x, .COMP .LEQ, .CONST (.num 7)] {} =
      .ok { vars := [{ name := x, lowerbound := .num 3, upperbound := .num 7 }] } := by
  constructor <;>
    simp [processboundssec, smfind, secslice, processboundsloop, updvar, getvarbyname,
      varmem, mapupd, ProcessedToken.isVARID, ProcessedToken.isFREE, ProcessedToken.nameD]

/-- Claim C6: a constraint-section range `c1 x1 + c2 x2 <= k` (as tokens:
constant, variable, constant, variable, comparison LEQ, constant) appends
exactly one constraint with linear terms (c1, x1) and (c2, x2) in that
order, upper bound k, and the lower bound left at its -infinity default
(visible as the omitted `lowerbound` field of the appended constraint). -/
theorem claim_c6_constraint_roundtrip (c1 c2 k : LpNum) (x1 x2 : String) (model : Model) :
    processconsec [(.CON, 0, 6)]
        [.CONST c1, .VARID x1, .CONST c2, .VARID x2, .COMP .LEQ, .CONST k] model =
      .ok { model with
              vars := getvarbyname (getvarbyname model.vars x1) x2,
              constraints := model.constraints ++
                [{ expr := { linterms := [{ coef := c1, var := x1 }, { coef := c2, var := x2 }] },
                   upperbound := k }] } := by
  simp [processconsec, smfind, secslice, processconsecloop, parseexpression, parseexprloop,
    addlin, addcon]

/-- Claim C5: in the expression parser, when is-objective is true the
closing bracket of a quadratic group must be immediately followed by a
slash and the constant 2.0 or the parse fails (second and third
conjuncts), while outside the objective the bracket alone ends the group
(fourth conjunct); the objective tokens of `[ x ^ 2 ] / 2` produce exactly
one quadratic term with coefficient 1.0 and var1 = var2 = x (first
conjunct), and the same trailing `/ 2` inside a constraint section makes
the constraint processor fail (fifth conjunct). -/
theorem claim_c5_quadratic_group_closing :
    (∀ x : String,
      parseexpression true
          [.BRKOP, .VARID x, .HAT, .CONST (.num 2), .BRKCL, .SLASH, .CONST (.num 2)] {} [] =
        .ok ({ quadterms := [{ coef := .num 1, var1 := x, var2 := x }] }, [{ name := x }], [])) ∧
    (∀ x : String,
      parseexpression true [.BRKOP, .VARID x, .HAT, .CONST (.num 2), .BRKCL] {} [] = .error ()) ∧
    (∀ (x : String) (c : LpNum), c ≠ .num 2 →
      parseexpression true
          [.BRKOP, .VARID x, .HAT, .CONST (.num 2), .BRKCL, .SLASH, .CONST c] {} [] = .error ()) ∧
    (∀ x : String,
      parseexpression false [.BRKOP, .VARID x, .HAT, .CONST (.num 2), .BRKCL] {} [] =
        .ok ({ quadterms := [{ coef := .num 1, var1 := x, var2 := x }] }, [{ name := x }], [])) ∧
    (∀ (x : String) (k : LpNum) (model : Model),
      processconsec [(.CON, 0, 9)]
          [.BRKOP, .VARID x, .HAT, .CONST (.num 2), .BRKCL, .SLASH, .CONST (.num 2),
           .COMP .LEQ, .CONST k] model = .error ()) := by
  refine ⟨?_, ?_, ?_, ?_, ?_⟩
  · intro x
    simp [parseexpression, parseexprloop, parsequad, addquad, getvarbyname, varmem]
  · intro x
    simp [parseexpression, parseexprloop, parsequad, addquad, getvarbyname, varmem]
  · intro x c hc
    simp [parseexpression, parseexprloop, parsequad, addquad, getvarbyname, varmem, hc]
  · intro x
    simp [parseexpression, parseexprloop, parsequad, addquad, getvarbyname, varmem]
  · intro x k model
    simp [processconsec, smfind, secslice, processconsecloop, parseexpression, parseexprloop,
      parsequad, addquad]

/-- Witness for claim C5: the third conjunct applied at the concrete
divisor 3, which is not 2, makes the objective parse fail. -/
theorem claim_c5_witness :
    ((.num 3 : LpNum) ≠ .num 2) ∧
    parseexpression true
        [.BRKOP, .VARID "x", .HAT, .CONST (.num 2), .BRKCL, .SLASH, .CONST (.num 3)] {} [] =
      .error () :=
  ⟨by decide, claim_c5_quadratic_group_closing.2.2.1 "x" (.num 3) (by decide)⟩

/-- Claim C10: when the section map has neither a minimize nor a maximize
entry, the objective processor succeeds, the model's objective is a
freshly allocated empty expression (no name, zero offset, no terms: the
default `Expression`), and every other field — in particular the objective
sense — is left unchanged. -/
theorem claim_c10_missing_objective (m : SectionMap) (toks : List ProcessedToken) (model : Model)
    (hmin : smfind m .OBJMIN = none) (hmax : smfind m .OBJMAX = none) :
    processobjsec m toks model = .ok { model with objective := {} } := by
  simp [processobjsec, hmin, hmax]

/-- Witness for claim C10: the empty section map on the default model. -/
theorem claim_c10_witness :
    processobjsec [] [] {} = .ok { ({} : Model) with objective := {} } :=
  claim_c10_missing_objective [] [] {} rfl rfl

/-- A successful lookup implies registered membership. -/
theorem varmem_of_varlookup {vars : VarMap} {x : String} {v : Variable}
    (h : varlookup vars x = some v) : varmem vars x = true := by
  induction vars with
  | nil => simp [varlookup] at h
  | cons v0 rest ih =>
    by_cases h0 : v0.name = x
    · simp [varmem, h0]
    · simp [varlookup, h0] at h
      simp [varmem, h0, ih h]

/-- Lookup through `mapupd` for a name-preserving update. -/
theorem varlookup_mapupd (f : Variable → Variable) (hf : ∀ v, (f v).name = v.name) :
    ∀ (vars : VarMap) (x : String),
      varlookup (mapupd vars x f) x = (varlookup vars x).map f := by
  intro vars x
  induction vars with
  | nil => rfl
  | cons v0 rest ih =>
    by_cases h0 : v0.name = x
    · simp [mapupd, varlookup, h0, hf]
    · simp [mapupd, varlookup, h0, ih]

/-- The semicontinuous-section loop is a left fold of `semistep` over the
listed variable names. -/
theorem processsemiloop_map (names : List String) :
    ∀ vars : VarMap, processsemiloop (names.map .VARID) vars = .ok (names.foldl semistep vars) := by
  induction names with
  | nil => intro vars; rfl
  | cons a as ih => intro vars; simp [processsemiloop, ih]

/-- Claim C2: when the section map has an entry for the integer section
(GEN), the semicontinuous processor runs over the semicontinuous section's
listed variables, applying `semistep` to each in order (second conjunct),
and `semistep` turns a general-integer variable into semi-integer and any
other variable into semicontinuous (third conjunct); when the integer
entry is absent the processor returns the model unchanged, so no listed
variable's kind changes (first conjunct). -/
theorem claim_c2_semicontinuous_guard :
    (∀ (m : SectionMap) (toks : List ProcessedToken) (model : Model),
      smfind m .GEN = none → processsemisec m toks model = .ok model) ∧
    (∀ (m : SectionMap) (toks : List ProcessedToken) (model : Model) (r : Nat × Nat)
        (names : List String),
      smfind m .GEN = some r →
      (match smfind m .SEMI with | some rr => secslice toks rr | none => []) =
        names.map ProcessedToken.VARID →
      processsemisec m toks model = .ok { model with vars := names.foldl semistep model.vars }) ∧
    (∀ (vars : VarMap) (x : String) (v : Variable), varlookup vars x = some v →
      varlookup (semistep vars x) x =
        some { v with vartype := if v.vartype = .GENERAL then .SEMIINTEGER else .SEMICONTINUOUS }) := by
  refine ⟨?_, ?_, ?_⟩
  · intro m toks model h
    simp [processsemisec, h]
  · intro m toks model r names hgen hsem
    simp [processsemisec, hgen, hsem, processsemiloop_map]
  · intro vars x v h
    have hmem := varmem_of_varlookup h
    have hf : ∀ w : Variable,
        (({ w with vartype := if w.vartype = .GENERAL then .SEMIINTEGER else .SEMICONTINUOUS } : Variable)).name = w.name := fun w => rfl
    simp [semistep, updvar, getvarbyname, hmem, varlookup_mapupd _ hf, h]

/-- Witness for claim C2: the three conjuncts at concrete inputs — the
guard skips a one-variable semicontinuous section when GEN is absent, runs
it when GEN is present, and `semistep` maps a general-integer variable to
semi-integer. -/
theorem claim_c2_witness :
    processsemisec [(.SEMI, 0, 1)] [.VARID "x"] {} = .ok {} ∧
    processsemisec [(.GEN, (0, 0)), (.SEMI, (0, 1))] [.VARID "x"]
        { vars := [{ name := "x", vartype := .GENERAL }] } =
      .ok { ({ vars := [{ name := "x", vartype := .GENERAL }] } : Model) with
              vars := ["x"].foldl semistep [{ name := "x", vartype := .GENERAL }] } ∧
    varlookup (semistep [{ name := "x", vartype := .GENERAL }] "x") "x" =
      some { ({ name := "x", vartype := .GENERAL } : Variable) with
              vartype := if ({ name := "x", vartype := .GENERAL } : Variable).vartype = .GENERAL
                         then .SEMIINTEGER else .SEMICONTINUOUS } :=
  ⟨claim_c2_semicontinuous_guard.1 _ _ _ rfl,
   claim_c2_semicontinuous_guard.2.1 _ _ _ (0, 0) ["x"] rfl rfl,
   claim_c2_semicontinuous_guard.2.2 _ "x" _ rfl⟩

/-- Claim C8: running the lexer and the token classifier on the text
`setA: S1:: x1:1 x2:2` and processing the resulting range as the
special-ordered-set section produces exactly one SpecialOrderedSet named
setA of type 1 with ordered entries (x1, 1.0) and (x2, 2.0); the labels
x1 and x2, classified as named-entity labels, are reinterpreted as
variable names and registered as variables. -/
theorem claim_c8_sos_section :
    ((tokenize "setA: S1:: x1:1 x2:2").bind processtokens).bind
        (fun toks => processsossec [(.SOS, 0, toks.length)] toks {}) =
      .ok { vars := [{ name := "x1" }, { name := "x2" }],
            soss := [{ name := "setA", sostype := 1,
                       entries := [("x1", .num 1), ("x2", .num 2)] }] } := by
  decide

/-- Setting an end position never changes the keys of the section map. -/
theorem smcontains_setSecond (m : SectionMap) (kw : LpSectionKeyword) (v : Nat)
    (K : LpSectionKeyword) : smcontains (smsetSecond m kw v) K = smcontains m K := by
  induction m with
  | nil => rfl
  | cons e rest ih =>
    by_cases h : e.1 = kw <;> simp [smcontains, smsetSecond, h, ih]

/-- Closing the open section never changes the keys of the section map. -/
theorem smcontains_closesec (m : SectionMap) (cur : LpSectionKeyword) (i : Nat)
    (K : LpSectionKeyword) : smcontains (closesec m cur i) K = smcontains m K := by
  unfold closesec
  split
  · rfl
  · exact smcontains_setSecond m cur i K

/-- Membership after inserting a fresh section entry. -/
theorem smcontains_insertFirst (m : SectionMap) (kw : LpSectionKeyword) (v : Nat)
    (K : LpSectionKeyword) :
    smcontains (sminsertFirst m kw v) K = (smcontains m K || decide (kw = K)) := by
  induction m with
  | nil => simp [sminsertFirst, smcontains]
  | cons e rest ih =>
    simp only [sminsertFirst] at ih ⊢
    by_cases h : e.1 = K
    · simp [smcontains, List.cons_append, h]
    · simp [smcontains, List.cons_append, h, ih]

/-- A `SECID` token is recovered from its keyword. -/
theorem eq_SECID_of_secOf {t : ProcessedToken} {kw : LpSectionKeyword}
    (h : secOf t = some kw) : t = .SECID kw := by
  cases t <;> simp_all [secOf]

/-- Once a keyword is recorded in the map, any later occurrence of its
section-keyword token makes the splitter fail. -/
theorem splitloop_error_of_mem :
    ∀ (toks : List ProcessedToken) (i : Nat) (cur : LpSectionKeyword) (m : SectionMap)
      (K : LpSectionKeyword),
      smcontains m K = true → (ProcessedToken.SECID K) ∈ toks →
      splitloop toks i cur m = .error () := by
  intro toks
  induction toks with
  | nil => intro i cur m K _ hmem; cases hmem
  | cons t rest ih =>
    intro i cur m K hK hmem
    cases hsec : secOf t with
    | none =>
      have hmem' : ProcessedToken.SECID K ∈ rest := by
        cases hmem with
        | head => simp [secOf] at hsec
        | tail _ h => exact h
      simp only [splitloop, hsec]
      exact ih _ _ _ _ hK hmem'
    | some kw =>
      by_cases hdup : smcontains (closesec m cur i) kw = true
      · simp [splitloop, hsec, hdup]
      · have hkK : kw ≠ K := by
          intro h
          rw [h, smcontains_closesec] at hdup
          exact hdup hK
        have hmem' : ProcessedToken.SECID K ∈ rest := by
          cases hmem with
          | head => simp [secOf] at hsec; exact absurd hsec.symm hkK
          | tail _ h => exact h
        by_cases hemp : emptyNext rest = true
        · simp only [splitloop, hsec, hdup, hemp, if_false, if_true]
          exact ih _ _ _ _ (by rw [smcontains_closesec]; exact hK) hmem'
        · simp only [splitloop, hsec]
          rw [if_neg hdup, if_neg hemp]
          refine ih _ _ _ _ ?_ hmem'
          rw [smcontains_insertFirst, smcontains_closesec, hK]
          rfl

/-- A section keyword occurring at position j with a following non-keyword
token (so the occurrence is recorded), and occurring again later, makes
the splitter fail from any starting state. -/
theorem splitloop_error_of_nonempty_dup :
    ∀ (toks : List ProcessedToken) (i : Nat) (cur : LpSectionKeyword) (m : SectionMap)
      (K : LpSectionKeyword) (j k : Nat),
      j < k → toks.get? j = some (.SECID K) → toks.get? k = some (.SECID K) →
      (∃ t, toks.get? (j + 1) = some t ∧ secOf t = none) →
      splitloop toks i cur m = .error () := by
  intro toks
  induction toks with
  | nil => intro i cur m K j k _ hj _ _; simp at hj
  | cons t rest ih =>
    intro i cur m K j k hjk hj hk hne
    cases j with
    | zero =>
      simp only [List.get?] at hj
      injection hj with hj
      subst hj
      obtain ⟨t', ht', hsec'⟩ := hne
      simp only [List.get?_cons_succ] at ht'
      obtain ⟨k', rfl⟩ : ∃ k', k = k' + 1 := ⟨k - 1, by omega⟩
      simp only [List.get?_cons_succ] at hk
      have hmem : ProcessedToken.SECID K ∈ rest := List.get?_mem hk
      have hemp : emptyNext rest = false := by
        cases rest with
        | nil => simp at ht'
        | cons r rest2 =>
          simp only [List.get?] at ht'
          injection ht' with ht'
          subst ht'
          simp [emptyNext, hsec']
      by_cases hdup : smcontains (closesec m cur i) K = true
      · simp [splitloop, secOf, hdup]
      · simp only [splitloop, secOf]
        rw [if_neg hdup, hemp]
        simp only [Bool.false_eq_true, if_false]
        refine splitloop_error_of_mem _ _ _ _ K ?_ hmem
        rw [smcontains_insertFirst]
        simp
    | succ j' =>
      obtain ⟨k', rfl⟩ : ∃ k', k = k' + 1 := ⟨k - 1, by omega⟩
      simp only [List.get?_cons_succ] at hj hk
      obtain ⟨t', ht', hsec'⟩ := hne
      simp only [List.get?_cons_succ] at ht'
      have hrec := fun i cur m => ih i cur m K j' k' (by omega) hj hk ⟨t', ht', hsec'⟩
      cases hsec : secOf t with
      | none =>
        simp only [splitloop, hsec]
        exact hrec _ _ _
      | some kw =>
        by_cases hdup : smcontains (closesec m cur i) kw = true
        · simp [splitloop, hsec, hdup]
        · by_cases hemp : emptyNext rest = true
          · simp only [splitloop, hsec]
            rw [if_neg hdup, hemp, if_pos rfl]
            exact hrec _ _ _
          · simp only [splitloop, hsec]
            rw [if_neg hdup, if_neg hemp]
            exact hrec _ _ _

/-- `smcontains` decides membership among the keys of the map. -/
theorem smcontains_iff_mem_keys (m : SectionMap) (K : LpSectionKeyword) :
    smcontains m K = true ↔ K ∈ m.map (fun e => e.1) := by
  induction m with
  | nil => simp [smcontains]
  | cons e rest ih =>
    by_cases h : e.1 = K
    · simp [smcontains, h]
    · have h' : ¬(e.1 = K) := h
      constructor
      · intro hc
        simp only [smcontains] at hc
        rw [if_neg h'] at hc
        simp [ih.1 hc]
      · intro hm
        simp only [List.map_cons, List.mem_cons] at hm
        rcases hm with hm | hm
        · exact absurd hm.symm h'
        · simp only [smcontains]
          rw [if_neg h']
          exact ih.2 hm

/-- Keys of the map after `smsetSecond`. -/
theorem keys_setSecond (m : SectionMap) (kw : LpSectionKeyword) (v : Nat) :
    (smsetSecond m kw v).map (fun e => e.1) = m.map (fun e => e.1) := by
  induction m with
  | nil => rfl
  | cons e rest ih =>
    by_cases h : e.1 = kw <;> simp [smsetSecond, h, ih]

/-- Keys of the map after `closesec`. -/
theorem keys_closesec (m : SectionMap) (cur : LpSectionKeyword) (i : Nat) :
    (closesec m cur i).map (fun e => e.1) = m.map (fun e => e.1) := by
  unfold closesec
  split
  · rfl
  · exact keys_setSecond m cur i

/-- A run of the splitter that succeeds keeps the keys of the section map
duplicate-free. -/
theorem splitloop_ok_nodup :
    ∀ (toks : List ProcessedToken) (i : Nat) (cur : LpSectionKeyword) (m m' : SectionMap),
      (m.map (fun e => e.1)).Nodup → splitloop toks i cur m = .ok m' →
      (m'.map (fun e => e.1)).Nodup := by
  intro toks
  induction toks with
  | nil =>
    intro i cur m m' hnd hok
    simp only [splitloop] at hok
    injection hok with hok
    rw [← hok, keys_closesec]
    exact hnd
  | cons t rest ih =>
    intro i cur m m' hnd hok
    cases hsec : secOf t with
    | none =>
      simp only [splitloop, hsec] at hok
      exact ih _ _ _ _ hnd hok
    | some kw =>
      by_cases hdup : smcontains (closesec m cur i) kw = true
      · simp [splitloop, hsec, hdup] at hok
      · by_cases hemp : emptyNext rest = true
        · simp only [splitloop, hsec] at hok
          rw [if_neg hdup, hemp, if_pos rfl] at hok
          refine ih _ _ _ _ ?_ hok
          rw [keys_closesec]
          exact hnd
        · simp only [splitloop, hsec] at hok
          rw [if_neg hdup, if_neg hemp] at hok
          refine ih _ _ _ _ ?_ hok
          have hnotmem : kw ∉ (closesec m cur i).map (fun e => e.1) := by
            intro hmem
            exact hdup ((smcontains_iff_mem_keys _ _).2 hmem)
          simp only [sminsertFirst, List.map_append, List.map_cons, List.map_nil]
          refine List.Nodup.append ?_ ?_ ?_
          · rw [keys_closesec]; exact hnd
          · simp
          · intro a ha hb
            simp only [List.mem_singleton] at hb
            rw [hb] at ha
            exact hnotmem ha

/-- When the splitter fails, some section-keyword token in the remaining
stream was either already recorded in the incoming map, or recorded by an
earlier non-empty occurrence of the same keyword in the stream. -/
theorem splitloop_dup_of_error :
    ∀ (toks : List ProcessedToken) (i : Nat) (cur : LpSectionKeyword) (m : SectionMap),
      splitloop toks i cur m = .error () →
      ∃ K j, toks.get? j = some (.SECID K) ∧
        (smcontains m K = true ∨
          ∃ j' t, j' < j ∧ toks.get? j' = some (.SECID K) ∧
            toks.get? (j' + 1) = some t ∧ secOf t = none) := by
  intro toks
  induction toks with
  | nil => intro i cur m h; simp [splitloop] at h
  | cons t rest ih =>
    intro i cur m herr
    cases hsec : secOf t with
    | none =>
      simp only [splitloop, hsec] at herr
      obtain ⟨K, j, hj, hdisj⟩ := ih _ _ _ herr
      refine ⟨K, j + 1, by simpa using hj, ?_⟩
      rcases hdisj with hl | ⟨j', t', hlt, hj', ht', hsec'⟩
      · exact Or.inl hl
      · exact Or.inr ⟨j' + 1, t', by omega, by simpa using hj', by simpa using ht', hsec'⟩
    | some kw =>
      have ht : t = .SECID kw := eq_SECID_of_secOf hsec
      by_cases hdup : smcontains (closesec m cur i) kw = true
      · refine ⟨kw, 0, by simp [ht], Or.inl ?_⟩
        rw [smcontains_closesec] at hdup
        exact hdup
      · by_cases hemp : emptyNext rest = true
        · simp only [splitloop, hsec] at herr
          rw [if_neg hdup, hemp, if_pos rfl] at herr
          obtain ⟨K, j, hj, hdisj⟩ := ih _ _ _ herr
          refine ⟨K, j + 1, by simpa using hj, ?_⟩
          rcases hdisj with hl | ⟨j', t', hlt, hj', ht', hsec'⟩
          · rw [smcontains_closesec] at hl
            exact Or.inl hl
          · exact Or.inr ⟨j' + 1, t', by omega, by simpa using hj', by simpa using ht', hsec'⟩
        · simp only [splitloop, hsec] at herr
          rw [if_neg hdup, if_neg hemp] at herr
          obtain ⟨K, j, hj, hdisj⟩ := ih _ _ _ herr
          refine ⟨K, j + 1, by simpa using hj, ?_⟩
          rcases hdisj with hl | ⟨j', t', hlt, hj', ht', hsec'⟩
          · rw [smcontains_insertFirst, smcontains_closesec] at hl
            rcases Bool.or_eq_true_iff.1 hl with hl' | hl'
            · exact Or.inl hl'
            · have hkK : kw = K := of_decide_eq_true hl'
              subst hkK
              obtain ⟨r, rest2, rfl⟩ : ∃ r rest2, rest = r :: rest2 := by
                cases rest with
                | nil => simp [emptyNext] at hemp
                | cons r rest2 => exact ⟨r, rest2, rfl⟩
              have hsecr : secOf r = none := by
                simp only [emptyNext, Bool.not_eq_true] at hemp
                exact Option.not_isSome_iff_eq_none.1 (by simp [hemp])
              exact Or.inr ⟨0, r, by omega, by simp [ht], by simp, hsecr⟩
          · exact Or.inr ⟨j' + 1, t', by omega, by simpa using hj', by simpa using ht', hsec'⟩

/-- Counterexample to claim C3 as stated: the stream BOUNDS BOUNDS x
contains the BOUNDS section keyword twice (positions 0 and 1), yet the
splitter succeeds — the first, empty occurrence is dropped rather than
recorded, so the duplicate check never fires. -/
theorem claim_c3_counterexample :
    [ProcessedToken.SECID .BOUNDS, .SECID .BOUNDS, .VARID "x"].get? 0 =
      some (.SECID .BOUNDS) ∧
    [ProcessedToken.SECID .BOUNDS, .SECID .BOUNDS, .VARID "x"].get? 1 =
      some (.SECID .BOUNDS) ∧
    splittokens [.SECID .BOUNDS, .SECID .BOUNDS, .VARID "x"] = .ok [(.BOUNDS, 2, 3)] := by
  refine ⟨rfl, rfl, by decide⟩

/-- Claim C3, amended: the splitter fails with DuplicateSection whenever a
section keyword occurs twice with the earlier occurrence recorded, i.e.
followed by a non-keyword token (first conjunct); and in every accepted
file each section keyword contributes at most one entry to the section map
(second conjunct: the keys of the resulting map are duplicate-free). -/
theorem claim_c3_duplicate_section_detection :
    (∀ (toks : List ProcessedToken) (K : LpSectionKeyword) (j k : Nat),
      j < k → toks.get? j = some (.SECID K) → toks.get? k = some (.SECID K) →
      (∃ t, toks.get? (j + 1) = some t ∧ secOf t = none) →
      splittokens toks = .error ()) ∧
    (∀ (toks : List ProcessedToken) (m : SectionMap),
      splittokens toks = .ok m → (m.map (fun e => e.1)).Nodup) := by
  constructor
  · intro toks K j k hjk hj hk hne
    exact splitloop_error_of_nonempty_dup toks 0 .NONE [] K j k hjk hj hk hne
  · intro toks m hok
    exact splitloop_ok_nodup toks 0 .NONE [] m (by simp) hok

/-- Witness for claim C3: the recorded BOUNDS section followed by a second
BOUNDS keyword fails, and the accepted one-section stream yields
duplicate-free keys. -/
theorem claim_c3_witness :
    splittokens [.SECID .BOUNDS, .VARID "x", .SECID .BOUNDS] = .error () ∧
    ([(LpSectionKeyword.BOUNDS, 1, 2)].map (fun e => e.1)).Nodup :=
  ⟨claim_c3_duplicate_section_detection.1 _ .BOUNDS 0 2 (by omega) rfl rfl
      ⟨.VARID "x", rfl, rfl⟩,
   claim_c3_duplicate_section_detection.2 [.SECID .BOUNDS, .VARID "x"] _ (by decide)⟩

/-- Claim C9: a DuplicateSection failure happens only when an earlier
occurrence of the same section keyword was recorded with content — that
is, a failure exhibits positions j' < j holding the same keyword where the
token right after j' is not a section keyword (first conjunct); and a
stream holding the same keyword twice whose first occurrence is empty is
accepted (second conjunct). -/
theorem claim_c9_empty_section_duplicates :
    (∀ toks : List ProcessedToken, splittokens toks = .error () →
      ∃ K j' j t, j' < j ∧ toks.get? j' = some (.SECID K) ∧
        toks.get? (j' + 1) = some t ∧ secOf t = none ∧
        toks.get? j = some (.SECID K)) ∧
    splittokens [.SECID .CON, .SECID .CON, .VARID "y"] = .ok [(.CON, 2, 3)] := by
  constructor
  · intro toks herr
    obtain ⟨K, j, hj, hdisj⟩ := splitloop_dup_of_error toks 0 .NONE [] herr
    rcases hdisj with hl | ⟨j', t', hlt, hj', ht', hsec'⟩
    · simp [smcontains] at hl
    · exact ⟨K, j', j, t', hlt, hj', ht', hsec', hj⟩
  · decide

/-- Witness for claim C9: the failing stream GEN z GEN exhibits the
recorded earlier occurrence required by the theorem. -/
theorem claim_c9_witness :
    ∃ K j' j t, j' < j ∧
      [ProcessedToken.SECID .GEN, .VARID "z", .SECID .GEN].get? j' = some (.SECID K) ∧
      [ProcessedToken.SECID .GEN, .VARID "z", .SECID .GEN].get? (j' + 1) = some t ∧
      secOf t = none ∧
      [ProcessedToken.SECID .GEN, .VARID "z", .SECID .GEN].get? j = some (.SECID K) :=
  claim_c9_empty_section_duplicates.1 _ (by decide)

/-- Modelled from the spec's words (claim C4, for comparison with the
source's `lexTermChars`): the punctuation set the spec claims terminates a
string run: `< > = : ; [ ] + - ^ / *`. -/
def specSpecialChars : List Char := ['<', '>', '=', ':', ';', '[', ']', '+', '-', '^', '/', '*']

/-- Modelled from the spec's words (claim C4): a character ends a string
run when it is whitespace or one of the claimed special characters. -/
def specTermTest (c : Char) : Bool := c = ' ' ∨ c = '\t' ∨ c ∈ specSpecialChars

/-- Modelled from the spec's words (claim C4): length of the maximal run
of characters up to the next whitespace or claimed special character. -/
def specRunlen : List Char → Nat
  | [] => 0
  | c :: rest => if specTermTest c then 0 else specRunlen rest + 1

/-- Modelled from the spec's words (claim C4): the string-run token the
spec's terminator set would produce at a given position. -/
def specStringRun (line : List Char) (pos : Nat) : String :=
  String.mk ((line.drop pos).take (specRunlen (line.drop pos)))

set_option maxHeartbeats 1000000 in
/-- The single-character rules never produce a string token. -/
theorem singleCharTok_ne_STR (c : Char) (s : String) : singleCharTok c ≠ some (.STR s) := by
  intro h
  unfold singleCharTok at h
  repeat' split at h
  all_goals cases h

/-- The identifier run never reaches past the end of the line. -/
theorem runlen_le_length (l : List Char) : runlen l ≤ l.length := by
  induction l with
  | nil => exact Nat.le_refl 0
  | cons c rest ih =>
    by_cases h : c ∈ lexTermChars
    · simp [runlen, h]
    · simp only [runlen, if_neg h, List.length_cons]
      omega

/-- No character inside the identifier run is a terminator. -/
theorem not_mem_lexTermChars_of_take :
    ∀ (l : List Char) (c : Char), c ∈ l.take (runlen l) → c ∉ lexTermChars := by
  intro l
  induction l with
  | nil => intro c hc; simp at hc
  | cons c0 rest ih =>
    intro c hc
    by_cases h : c0 ∈ lexTermChars
    · simp [runlen, h] at hc
    · simp only [runlen, h, if_neg, List.take_succ_cons] at hc
      rcases List.mem_cons.1 hc with rfl | hc'
      · simpa using h
      · exact ih c (by simpa using hc')

/-- The character right after the identifier run, when any, is a
terminator. -/
theorem mem_lexTermChars_at_runlen :
    ∀ (l : List Char) (c : Char), l.get? (runlen l) = some c → c ∈ lexTermChars := by
  intro l
  induction l with
  | nil => intro c hc; simp at hc
  | cons c0 rest ih =>
    intro c hc
    by_cases h : c0 ∈ lexTermChars
    · simp only [runlen, h, if_pos, List.get?] at hc
      injection hc with hc
      rw [← hc]; exact h
    · simp only [runlen, h, if_neg, List.get?_cons_succ] at hc
      exact ih c hc

/-- Counterexample to claim C4 as stated: the claim's terminator set
includes the opening square bracket, so lexing `x[y` would have to stop at
the bracket and produce the run `x`; the source's `find_first_of` set
omits `;`, `[` and `]`, and the lexer produces the single run `x[y`. -/
theorem claim_c4_counterexample :
    readnexttoken "x[y".data 0 = .tok (.STR "x[y") 3 ∧
    specStringRun "x[y".data 0 = "x" ∧
    '[' ∈ specSpecialChars ∧ '[' ∉ lexTermChars ∧ ("x[y" : String) ≠ "x" := by
  refine ⟨by decide, by decide, by decide, by decide, by decide⟩

/-- Claim C4, amended: whenever the lexer's single-character and numeric
rules do not apply and a string-run token is produced, the token is the
maximal nonempty run of characters from the current position up to but not
including the next character of the source's terminator set — tab,
newline, backslash, space and `: + < > ^ = / - *` — or the end of the
line; semicolon and the square brackets do not terminate the run. -/
theorem claim_c4_string_run (line : List Char) (pos : Nat) (s : String) (p : Nat)
    (h : readnexttoken line pos = .tok (.STR s) p) :
    s.data = (line.drop pos).take (p - pos) ∧
    pos < p ∧ p ≤ line.length ∧
    (∀ c ∈ s.data, c ∉ lexTermChars) ∧
    (p = line.length ∨ ∃ c, line.get? p = some c ∧ c ∈ lexTermChars) := by
  unfold readnexttoken at h
  cases hget : line.get? pos with
  | none => rw [hget] at h; cases h
  | some c =>
    rw [hget] at h
    simp only at h
    by_cases h1 : c = '\\'
    · rw [if_pos h1] at h; cases h
    · rw [if_neg h1] at h
      cases hsc : singleCharTok c with
      | some t =>
        rw [hsc] at h
        simp only at h
        injection h with ht _
        exact absurd (ht ▸ hsc) (singleCharTok_ne_STR c _)
      | none =>
        rw [hsc] at h
        simp only at h
        by_cases h2 : c = ' ' ∨ c = '\t'
        · rw [if_pos h2] at h; cases h
        · rw [if_neg h2] at h
          by_cases h3 : c = ';' ∨ c = '\n'
          · rw [if_pos h3] at h; cases h
          · rw [if_neg h3] at h
            cases hsd : strtod (line.drop pos) with
            | some vl =>
              rw [hsd] at h
              cases vl with
              | mk v len => simp only at h; cases h
            | none =>
              rw [hsd] at h
              simp only at h
              by_cases h4 : 0 < runlen (line.drop pos)
              · rw [if_pos h4] at h
                injection h with hs hp
                injection hs with hs
                subst hs
                subst hp
                have hposlt : pos < line.length := by
                  rcases List.get?_eq_some.1 hget with ⟨hlt, _⟩
                  exact hlt
                have hrle : runlen (line.drop pos) ≤ line.length - pos := by
                  have := runlen_le_length (line.drop pos)
                  simpa [List.length_drop] using this
                constructor
                · simp
                refine ⟨by omega, by omega, ?_, ?_⟩
                · intro ch hch
                  exact not_mem_lexTermChars_of_take _ ch (by simpa using hch)
                · by_cases hend : pos + runlen (line.drop pos) = line.length
                  · exact Or.inl hend
                  · refine Or.inr ?_
                    have hplt : pos + runlen (line.drop pos) < line.length := by omega
                    cases hgp : line.get? (pos + runlen (line.drop pos)) with
                    | none =>
                      rw [List.get?_eq_none] at hgp
                      omega
                    | some ch =>
                      refine ⟨ch, rfl, ?_⟩
                      refine mem_lexTermChars_at_runlen (line.drop pos) ch ?_
                      rw [List.get?_eq_getElem?, List.getElem?_drop]
                      rw [List.get?_eq_getElem?] at hgp
                      exact hgp
              · rw [if_neg h4] at h; cases h

/-- Witness for claim C4: the amended statement applied to lexing the
concrete line `x[y` from position 0, which produces the run `x[y` of
length 3. -/
theorem claim_c4_witness :
    ("x[y" : String).data = ("x[y".data.drop 0).take (3 - 0) ∧
    0 < 3 ∧ 3 ≤ "x[y".data.length ∧
    (∀ c ∈ ("x[y" : String).data, c ∉ lexTermChars) ∧
    (3 = "x[y".data.length ∨ ∃ c, "x[y".data.get? 3 = some c ∧ c ∈ lexTermChars) :=
  claim_c4_string_run "x[y".data 0 "x[y" 3 (by decide)
